import Mathlib

/-!
Verification of the structure parser in `filestructure.py`
(`ProjectStructureParser.parse_structure` / `_build_structure_dict` /
`_is_parent_dir`), as a shallow embedding in Lean.

Modelling conventions:

* A Python dict value in the structure dictionaries is either `None` (a file)
  or a nested dict (a directory).  Dicts preserve insertion order, and
  assignment to an existing key replaces its value in place; we model them as
  association lists (`List (String × Entry)`) with `insertAssoc` for
  `d[k] = v`.
* `_build_structure_dict` keeps `hierarchy_stack`, a Python list of references
  to dicts, where each pushed dict is a child (by some key) of the dict below
  it, the bottom being the root's child dict.  A stack of such aliases is
  equivalent to the list of keys leading from the root's child dict to the
  top; we model the stack as that key path (`hier`, innermost key first) and
  perform every write with `setAt`, which descends along the path.  `setAt`
  returns `Except` so that a broken path would surface as `PyErr.keyError`;
  the development proves this branch unreachable.
* File input/decoding is outside the model: `parse_structure` takes the
  already-decoded list of lines.  Python `str.strip`/`rstrip` are modelled on
  ASCII whitespace.
-/

/-- Errors of the embedded parser.  `indexError` is Python's `IndexError`,
raised by `lines[0]` on an empty list (line 38 of the source).
`malformedStructure` is the `MalformedStructure` error named by the
specification's error taxonomy; modelled from the spec: the source code never
defines nor raises it.  `keyError` is the failure branch of the path-based
model of the dict-reference stack; it is proved unreachable. -/
inductive PyErr where
  | indexError : PyErr
  | keyError : PyErr
  | malformedStructure : PyErr
deriving DecidableEq

/-- A value of the structure dictionary: Python `None` (a file) or a nested
dict (a directory with its ordered children). -/
inductive Entry : Type where
  | file : Entry
  | dir : List (String × Entry) → Entry

/-- Python ASCII whitespace, as matched by `str.strip()` and `\s` on the
inputs in scope. -/
def isPySpace (c : Char) : Bool :=
  c == ' ' || c == '\t' || c == '\n' || c == '\r' || c == '\x0b' || c == '\x0c'

/-- The character class of `re.sub(r'^[│├└─\s]+', '', line)`: box-drawing
tree glyphs and whitespace. -/
def isTreeChar (c : Char) : Bool :=
  c == '│' || c == '├' || c == '└' || c == '─' || isPySpace c

/-- Remove trailing characters satisfying `p` (helper for `rstrip`). -/
def dropTrail (p : Char → Bool) (l : List Char) : List Char :=
  (l.reverse.dropWhile p).reverse

/-- Python `line.rstrip()`. -/
def pyRstrip (s : String) : String :=
  ⟨dropTrail isPySpace s.data⟩

/-- Python `line.strip()`. -/
def pyStrip (s : String) : String :=
  ⟨dropTrail isPySpace (s.data.dropWhile isPySpace)⟩

/-- Python `line.rstrip('/')`: remove all trailing `/` characters. -/
def rstripSlashes (s : String) : String :=
  ⟨dropTrail (fun c => c == '/') s.data⟩

/-- Lines 50 of the source: `re.sub(r'^[│├└─\s]+', '', line).strip()`. -/
def cleanLine (s : String) : String :=
  pyStrip ⟨s.data.dropWhile isTreeChar⟩

/-- Python `line.endswith('/')`. -/
def endsWithSlash (s : String) : Bool :=
  match s.data.getLast? with
  | some c => c == '/'
  | none => false

/-- `child.startswith(parent)` on character lists. -/
def listStartsWith : List Char → List Char → Bool
  | _, [] => true
  | [], _ :: _ => false
  | c :: cs, d :: ds => c == d && listStartsWith cs ds

/-- `ProjectStructureParser._is_parent_dir` (lines 83–92):
`child.startswith(parent) and child != parent`. -/
def isParentDir (parent child : String) : Bool :=
  listStartsWith child.data parent.data && decide (child ≠ parent)

/-- Python dict assignment `d[k] = v` on the ordered association list:
replace the value of an existing key in place, else append. -/
def insertAssoc : List (String × Entry) → String → Entry → List (String × Entry)
  | [], k, v => [(k, v)]
  | (n, e) :: t, k, v => if n = k then (n, v) :: t else (n, e) :: insertAssoc t k v

/-- Ordered-dict key lookup. -/
def lookupA : List (String × Entry) → String → Option Entry
  | [], _ => none
  | (n, e) :: t, k => if n = k then some e else lookupA t k

/-- Replace the value of the (first) occurrence of a key. -/
def replaceA : List (String × Entry) → String → Entry → List (String × Entry)
  | [], _, _ => []
  | (n, e) :: t, k, v => if n = k then (n, v) :: t else (n, e) :: replaceA t k v

/-- Write `d[k] = v` where `d` is the dict reached from the root's child dict
by following `path`; models assignment through the aliased dict reference at
the top of `hierarchy_stack`. -/
def setAt : List String → List (String × Entry) → String → Entry → Except PyErr (List (String × Entry))
  | [], t, k, v => .ok (insertAssoc t k v)
  | p :: ps, t, k, v =>
    match lookupA t p with
    | some (Entry.dir c) => (setAt ps c k v).map (fun c2 => replaceA t p (Entry.dir c2))
    | _ => .error PyErr.keyError

/-- The pop loop of lines 64–66:
`while current_hierarchy and not self._is_parent_dir(current_hierarchy[-1], clean_line)`.
The hierarchy is kept innermost-first, so popping drops from the head. -/
def popWhile (hier : List String) (name : String) : List String :=
  match hier with
  | [] => []
  | h :: t => if isParentDir h name then h :: t else popWhile t name

/-- Loop body of lines 54–79: one cleaned line updates the state
`(root's child dict, hierarchy key path innermost-first)`. -/
def processLine (st : List (String × Entry) × List String) (line : String) :
    Except PyErr (List (String × Entry) × List String) :=
  let cl := rstripSlashes line
  if endsWithSlash line then
    let h2 := popWhile st.2 cl
    (setAt h2.reverse st.1 cl (Entry.dir [])).map (fun t2 => (t2, cl :: h2))
  else
    (setAt st.2.reverse st.1 cl Entry.file).map (fun t2 => (t2, st.2))

/-- The `for line in cleaned_lines` loop. -/
def runLines (st : List (String × Entry) × List String) :
    List String → Except PyErr (List (String × Entry) × List String)
  | [] => .ok st
  | l :: ls =>
    match processLine st l with
    | .ok st2 => runLines st2 ls
    | .error e => .error e

/-- `ProjectStructureParser._build_structure_dict` (lines 30–81).  An empty
line list raises `IndexError` at `lines[0]`.  Otherwise the root name is
`lines[0].rstrip('/').strip()`, subsequent lines are cleaned of tree glyphs
and empty results dropped (lines 47–52), and the loop builds the root's child
dict. -/
def buildStructureDict : List String → Except PyErr (List (String × Entry))
  | [] => .error PyErr.indexError
  | l0 :: rest =>
    (runLines ([], []) ((rest.map cleanLine).filter (fun s => s ≠ ""))).map
      (fun st => [(pyStrip (rstripSlashes l0), Entry.dir st.1)])

/-- `ProjectStructureParser.parse_structure` (lines 15–28), with the file
already read and split into lines: keep lines whose `strip()` is non-empty,
`rstrip()` each, and build. -/
def parse_structure (input_lines : List String) : Except PyErr (List (String × Entry)) :=
  buildStructureDict ((input_lines.filter (fun l => pyStrip l ≠ "")).map pyRstrip)

/-- State of the build loop: the root's child dict and the hierarchy key path
(innermost first). -/
abbrev BuildState := List (String × Entry) × List String

/-- Validity of a key path into a structure dictionary: each key resolves to
a directory entry.  This is the invariant that makes the path model of the
aliased `hierarchy_stack` exact. -/
def validPath : List (String × Entry) → List String → Prop
  | _, [] => True
  | t, p :: ps => ∃ c, lookupA t p = some (Entry.dir c) ∧ validPath c ps

/-- One iteration of the loop of lines 54–79, as a transition relation on the
build state (the operational rendering of `processLine`). -/
inductive LineStep : BuildState → String → BuildState → Prop where
  | dir : ∀ (t : List (String × Entry)) (h : List String) (line : String)
      (t2 : List (String × Entry)),
      endsWithSlash line = true →
      setAt (popWhile h (rstripSlashes line)).reverse t (rstripSlashes line)
        (Entry.dir []) = .ok t2 →
      LineStep (t, h) line (t2, rstripSlashes line :: popWhile h (rstripSlashes line))
  | file : ∀ (t : List (String × Entry)) (h : List String) (line : String)
      (t2 : List (String × Entry)),
      endsWithSlash line = false →
      setAt h.reverse t (rstripSlashes line) Entry.file = .ok t2 →
      LineStep (t, h) line (t2, h)

/-- A full run of the build loop over a list of cleaned lines. -/
inductive BuildSteps : BuildState → List String → BuildState → Prop where
  | nil : ∀ s, BuildSteps s [] s
  | cons : ∀ s l s2 ls s3, LineStep s l s2 → BuildSteps s2 ls s3 →
      BuildSteps s (l :: ls) s3

/-! ## Basic lemmas -/

theorem except_map_ok {α β : Type} (f : α → β) (a : α) :
    (Except.ok a : Except PyErr α).map f = .ok (f a) := rfl

theorem except_map_error {α β : Type} (f : α → β) (e : PyErr) :
    (Except.error e : Except PyErr α).map f = .error e := rfl

/-! ## Claims C1–C4 -/

/-- C1: the spec claims two lines at identical depth under the same parent
never become parent/child (`src/` then `src_utils/` are siblings).  The code
instead decides nesting with the `child.startswith(parent)` heuristic of
`_is_parent_dir` and makes `src_utils` a child of `src`; this evaluation
records the code's behavior at the failing input. -/
theorem C1_code_eval : parse_structure ["project/", "├── src/", "├── src_utils/"] =
    .ok [("project", Entry.dir [("src", Entry.dir [("src_utils", Entry.dir [])])])] := rfl

/-- C2: the spec claims the builder pops the ancestor stack while the top's
depth is `≥ D` and attaches under the nearest strictly shallower ancestor.
The code never computes a depth: it strips all indentation and glyphs and
pops by the name-prefix heuristic.  At this input, depth classification gives
`a` at depth 1, `b` at depth 2 (child of `a`), `c` at depth 1 (sibling of
`a`), but the code produces `a`, `b`, `c` all as siblings under `root`. -/
theorem C2_code_eval : parse_structure ["root/", "├── a/", "│   └── b/", "└── c/"] =
    .ok [("root", Entry.dir [("a", Entry.dir []), ("b", Entry.dir []), ("c", Entry.dir [])])] := rfl

/-- C3: the spec's worked example requires `README.md` to be a direct child
of `project`.  The code attaches it inside `src`, because file lines never
pop the hierarchy and depth information was discarded. -/
theorem C3_code_eval : parse_structure ["project/", "├── src/", "│   └── main.ext", "└── README.md"] =
    .ok [("project", Entry.dir
      [("src", Entry.dir [("main.ext", Entry.file), ("README.md", Entry.file)])])] := rfl

/-- C4 counterexample: on the single-blank-line input the parse fails, but
with Python's `IndexError` (from `lines[0]` on the emptied list), not with a
`MalformedStructure` error — the code defines no such error. -/
theorem C4_counterexample :
    parse_structure [""] = .error PyErr.indexError ∧
    (Except.error PyErr.indexError : Except PyErr (List (String × Entry))) ≠
      .error PyErr.malformedStructure := by
  refine ⟨rfl, fun h => ?_⟩
  exact PyErr.noConfusion (Except.error.inj h)

/-- C4 (amended): for any input with no meaningful line (every line
whitespace-only), the parse fails with an uncaught `IndexError` — so no
partial tree is returned — rather than with `MalformedStructure`. -/
theorem C4_amended_no_root : ∀ input : List String,
    input.filter (fun l => pyStrip l ≠ "") = [] →
    parse_structure input = .error PyErr.indexError := by
  intro input h
  unfold parse_structure
  rw [h]
  rfl

/-- C4 witness: the single-blank-line input instantiates the amended
theorem. -/
theorem C4_witness : parse_structure [""] = .error PyErr.indexError :=
  C4_amended_no_root [""] (by decide)

/-! ## Claims C6 and C7 -/

/-- C6: a non-root line produces a directory entry exactly when the cleaned
line ends with `/`, and the stored name is the cleaned line with trailing
slashes removed. -/
theorem C6_dir_iff : ∀ r l : String, cleanLine l ≠ "" →
    buildStructureDict [r, l] = .ok [(pyStrip (rstripSlashes r), Entry.dir
      [(rstripSlashes (cleanLine l),
        if endsWithSlash (cleanLine l) = true then Entry.dir [] else Entry.file)])] := by
  intro r l h
  cases hE : endsWithSlash (cleanLine l) with
  | true =>
    simp [buildStructureDict, List.filter_cons, h, runLines, processLine, hE,
      popWhile, setAt, insertAssoc, except_map_ok]
  | false =>
    simp [buildStructureDict, List.filter_cons, h, runLines, processLine, hE,
      setAt, insertAssoc, except_map_ok]

/-- C6 witness: a tree-drawing directory line under a root. -/
theorem C6_witness : buildStructureDict ["proj/", "├── a/"] =
    .ok [("proj", Entry.dir [("a", Entry.dir [])])] :=
  C6_dir_iff "proj/" "├── a/" (by decide)

/-- C7: an input whose meaningful content is a single root line parses to a
tree with exactly one directory node and zero children, named by the root
line after stripping trailing slashes and surrounding whitespace. -/
theorem C7_single_root : ∀ (input : List String) (l : String),
    input.filter (fun s => pyStrip s ≠ "") = [l] →
    parse_structure input = .ok [(pyStrip (rstripSlashes (pyRstrip l)), Entry.dir [])] := by
  intro input l h
  unfold parse_structure
  rw [h]
  rfl

/-- C7 witness: the one-line input `proj/`. -/
theorem C7_witness : parse_structure ["proj/"] = .ok [("proj", Entry.dir [])] :=
  C7_single_root ["proj/"] "proj/" (by decide)

/-! ## Characterization of skipped lines (C5, C9) -/

theorem dropWhile_head_false {α : Type} (p : α → Bool) :
    ∀ (l : List α) (c : α) (rest : List α), l.dropWhile p = c :: rest → p c = false := by
  intro l
  induction l with
  | nil => intro c rest h; simp [List.dropWhile] at h
  | cons a t ih =>
    intro c rest h
    cases hpa : p a with
    | true =>
      rw [List.dropWhile_cons, if_pos hpa] at h
      exact ih c rest h
    | false =>
      rw [List.dropWhile_cons, if_neg (by simp [hpa])] at h
      cases h
      exact hpa

theorem dropWhile_app_ne_nil {α : Type} (p : α → Bool) (c : α) (hc : p c = false) :
    ∀ xs : List α, (xs ++ [c]).dropWhile p ≠ [] := by
  intro xs
  induction xs with
  | nil => simp [List.dropWhile, hc]
  | cons a t ih =>
    cases hpa : p a with
    | true => simpa [List.cons_append, List.dropWhile_cons, hpa] using ih
    | false => simp [List.cons_append, List.dropWhile_cons, hpa]

theorem strip_empty_iff (p : Char → Bool) (hp : ∀ c, isPySpace c = true → p c = true)
    (l : List Char) :
    dropTrail isPySpace (l.dropWhile p) = [] ↔ ∀ c ∈ l, p c = true := by
  constructor
  · intro h
    rw [← List.dropWhile_eq_nil_iff (p := p)]
    by_contra hne
    obtain ⟨c, rest, hcr⟩ : ∃ c rest, l.dropWhile p = c :: rest := by
      cases hdw : l.dropWhile p with
      | nil => exact absurd hdw hne
      | cons c rest => exact ⟨c, rest, rfl⟩
    have hpc : p c = false := dropWhile_head_false p l c rest hcr
    have hsc : isPySpace c = false := by
      cases hs : isPySpace c
      · rfl
      · exact absurd (hp c hs) (by simp [hpc])
    rw [hcr] at h
    unfold dropTrail at h
    rw [List.reverse_eq_nil_iff] at h
    exact dropWhile_app_ne_nil isPySpace c hsc rest.reverse
      (by simpa [List.reverse_cons] using h)
  · intro h
    have hdw : l.dropWhile p = [] := List.dropWhile_eq_nil_iff.mpr (by
      intro x hx; simp [h x hx])
    rw [hdw]
    rfl

theorem dropWhile_dropWhile_sub {p q : Char → Bool} (hpq : ∀ c, q c = true → p c = true)
    (l : List Char) : (l.dropWhile p).dropWhile q = l.dropWhile p := by
  cases hdw : l.dropWhile p with
  | nil => rfl
  | cons c rest =>
    have hpc : p c = false := dropWhile_head_false p l c rest hdw
    have hqc : q c = false := by
      cases hq : q c
      · rfl
      · exact absurd (hpq c hq) (by simp [hpc])
    rw [List.dropWhile_cons, if_neg (by simp [hqc])]

theorem string_mk_eq_empty_iff (xs : List Char) : (⟨xs⟩ : String) = "" ↔ xs = [] := by
  constructor
  · intro h
    exact congrArg String.data h
  · intro h
    rw [h]

theorem isPySpace_isTreeChar {c : Char} (h : isPySpace c = true) : isTreeChar c = true := by
  simp [isTreeChar, h]

theorem cleanLine_empty_iff (l : String) :
    cleanLine l = "" ↔ ∀ c ∈ l.data, isTreeChar c = true := by
  have h1 : cleanLine l = ⟨dropTrail isPySpace (l.data.dropWhile isTreeChar)⟩ := by
    simp [cleanLine, pyStrip,
      dropWhile_dropWhile_sub (fun c => isPySpace_isTreeChar) l.data]
  rw [h1, string_mk_eq_empty_iff]
  exact strip_empty_iff isTreeChar (fun c => isPySpace_isTreeChar) l.data

theorem pyStrip_empty_iff (l : String) :
    pyStrip l = "" ↔ ∀ c ∈ l.data, isPySpace c = true := by
  have h1 : pyStrip l = ⟨dropTrail isPySpace (l.data.dropWhile isPySpace)⟩ := rfl
  rw [h1, string_mk_eq_empty_iff]
  exact strip_empty_iff isPySpace (fun c h => h) l.data

/-- C5 counterexample: a comment line (first non-whitespace character `#`) is
not skipped — it becomes a file node — while a line of tree glyphs only,
which is neither empty nor a comment, is skipped.  Both directions of the
claimed "exactly when" fail on the code. -/
theorem C5_counterexample :
    (("# hi".data.dropWhile isPySpace).head? = some '#') ∧
    parse_structure ["root/", "# hi"] = .ok [("root", Entry.dir [("# hi", Entry.file)])] ∧
    cleanLine "├──" = "" ∧
    buildStructureDict ["root/", "├──"] = .ok [("root", Entry.dir [])] :=
  ⟨rfl, rfl, rfl, rfl⟩

/-- C5 (amended): a line contributes nothing to the build exactly when it
consists entirely of tree-drawing glyphs and whitespace (so in particular
when it is empty or whitespace-only, the case the upstream filter of
`parse_structure` removes); comment lines receive no special treatment. -/
theorem C5_skip_characterization : ∀ l : String,
    (cleanLine l = "" ↔ ∀ c ∈ l.data, isTreeChar c = true) ∧
    (pyStrip l = "" → cleanLine l = "") := by
  intro l
  refine ⟨cleanLine_empty_iff l, fun h => ?_⟩
  refine (cleanLine_empty_iff l).mpr ?_
  intro c hc
  exact isPySpace_isTreeChar ((pyStrip_empty_iff l).mp h c hc)

/-- C5 witness: a concrete glyphs-and-whitespace line cleans to empty via the
characterization. -/
theorem C5_witness : cleanLine "│ ─ " = "" :=
  (C5_skip_characterization "│ ─ ").1.mpr (by decide)

/-- C9: a non-root line consisting only of tree-drawing glyphs and whitespace
is silently skipped: removing it from the input leaves the parse result
unchanged — no node, no error, no effect on the hierarchy state. -/
theorem C9_glyph_only_skipped : ∀ (l0 g : String) (pre post : List String),
    (∀ c ∈ g.data, isTreeChar c = true) →
    buildStructureDict (l0 :: (pre ++ g :: post)) = buildStructureDict (l0 :: (pre ++ post)) := by
  intro l0 g pre post hg
  have h : cleanLine g = "" := (cleanLine_empty_iff g).mpr hg
  simp [buildStructureDict, List.map_append, List.filter_append, List.filter_cons, h]

/-- C9 witness: a branch-glyph-only line between a root and a file line. -/
theorem C9_witness : buildStructureDict ["root/", "├──", "a"] = buildStructureDict ["root/", "a"] :=
  C9_glyph_only_skipped "root/" "├──" [] ["a"] (by decide)

/-! ## Determinism of the build (C8) -/

theorem lineStep_processLine {s : BuildState} {l : String} {s2 : BuildState} :
    LineStep s l s2 → processLine s l = .ok s2 := by
  intro h
  cases h with
  | dir t hh line t2 hE hS => simp [processLine, hE, hS, except_map_ok]
  | file t hh line t2 hE hS => simp [processLine, hE, hS, except_map_ok]

/-- C8: the build is deterministic and a pure function of its input line
sequence: any two runs of the build loop from the same state over the same
lines reach the same final state, and every run agrees with the pure
function `runLines` — there is no cross-invocation state to consult. -/
theorem C8_build_deterministic :
    (∀ (s : BuildState) (ls : List String) (s1 s2 : BuildState),
      BuildSteps s ls s1 → BuildSteps s ls s2 → s1 = s2) ∧
    (∀ (s s2 : BuildState) (ls : List String), BuildSteps s ls s2 → runLines s ls = .ok s2) := by
  have hrun : ∀ (s : BuildState) (ls : List String) (s2 : BuildState),
      BuildSteps s ls s2 → runLines s ls = .ok s2 := by
    intro s ls s2 h
    induction h with
    | nil s => rfl
    | cons s l smid ls s3 hstep hrest ih =>
      have hp := lineStep_processLine hstep
      simp [runLines, hp, ih]
  constructor
  · intro s ls s1 s2 h1 h2
    have e2 := hrun s ls s2 h2
    rw [hrun s ls s1 h1] at e2
    exact Except.ok.inj e2
  · intro s s2 ls h
    exact hrun s ls s2 h

/-- C8 witness: two one-line runs from the initial state, compared through
the theorem. -/
theorem C8_witness : runLines ([], []) ["a"] = .ok ([("a", Entry.file)], []) :=
  C8_build_deterministic.2 ([], []) ([("a", Entry.file)], []) ["a"]
    (BuildSteps.cons _ _ _ _ _
      (LineStep.file [] [] "a" [("a", Entry.file)] (by decide) rfl)
      (BuildSteps.nil _))

/-! ## Totality of the build on non-empty meaningful input (C10) -/

theorem lookupA_insertAssoc_self (t : List (String × Entry)) (k : String) (v : Entry) :
    lookupA (insertAssoc t k v) k = some v := by
  induction t with
  | nil => simp [insertAssoc, lookupA]
  | cons a t ih =>
    obtain ⟨n, e⟩ := a
    by_cases h : n = k
    · simp [insertAssoc, h, lookupA]
    · simp [insertAssoc, h, lookupA, ih]

theorem lookupA_replaceA_self (t : List (String × Entry)) (k : String) (v e : Entry)
    (h : lookupA t k = some e) : lookupA (replaceA t k v) k = some v := by
  induction t with
  | nil => simp [lookupA] at h
  | cons a t ih =>
    obtain ⟨n, e0⟩ := a
    by_cases hn : n = k
    · simp [replaceA, hn, lookupA]
    · simp only [lookupA, if_neg hn] at h
      simp [replaceA, hn, lookupA, ih h]

theorem setAt_ok (path : List String) : ∀ t : List (String × Entry), validPath t path →
    ∀ (k : String) (v : Entry), ∃ t2, setAt path t k v = .ok t2 := by
  induction path with
  | nil => intro t _ k v; exact ⟨insertAssoc t k v, rfl⟩
  | cons p ps ih =>
    intro t hv k v
    obtain ⟨c, hc, hcv⟩ := hv
    obtain ⟨c2, hc2⟩ := ih c hcv k v
    exact ⟨replaceA t p (Entry.dir c2), by simp [setAt, hc, hc2, except_map_ok]⟩

theorem setAt_preserves_valid (path : List String) :
    ∀ (t : List (String × Entry)) (k : String) (v : Entry) (t2 : List (String × Entry)),
    setAt path t k v = .ok t2 → validPath t path → validPath t2 path := by
  induction path with
  | nil => intro t k v t2 _ _; trivial
  | cons p ps ih =>
    intro t k v t2 hset hv
    obtain ⟨c, hc, hcv⟩ := hv
    simp only [setAt, hc] at hset
    cases hs : setAt ps c k v with
    | error e => rw [hs] at hset; simp [except_map_error] at hset
    | ok c2 =>
      rw [hs] at hset
      simp only [except_map_ok, Except.ok.injEq] at hset
      subst hset
      exact ⟨c2, lookupA_replaceA_self t p (Entry.dir c2) (Entry.dir c) hc,
        ih c k v c2 hs hcv⟩

theorem setAt_extends_valid (path : List String) :
    ∀ (t : List (String × Entry)) (k : String) (t2 : List (String × Entry)),
    setAt path t k (Entry.dir []) = .ok t2 → validPath t path →
    validPath t2 (path ++ [k]) := by
  induction path with
  | nil =>
    intro t k t2 hset _
    simp only [setAt, Except.ok.injEq] at hset
    subst hset
    exact ⟨[], lookupA_insertAssoc_self t k (Entry.dir []), trivial⟩
  | cons p ps ih =>
    intro t k t2 hset hv
    obtain ⟨c, hc, hcv⟩ := hv
    simp only [setAt, hc] at hset
    cases hs : setAt ps c k (Entry.dir []) with
    | error e => rw [hs] at hset; simp [except_map_error] at hset
    | ok c2 =>
      rw [hs] at hset
      simp only [except_map_ok, Except.ok.injEq] at hset
      subst hset
      exact ⟨c2, lookupA_replaceA_self t p (Entry.dir c2) (Entry.dir c) hc,
        ih c k c2 hs hcv⟩

theorem popWhile_is_suffix (h : List String) (n : String) :
    ∃ d, h = d ++ popWhile h n := by
  induction h with
  | nil => exact ⟨[], rfl⟩
  | cons a t ih =>
    by_cases hp : isParentDir a n = true
    · exact ⟨[], by simp [popWhile, hp]⟩
    · obtain ⟨d, hd⟩ := ih
      refine ⟨a :: d, ?_⟩
      simp only [popWhile, if_neg hp, List.cons_append, List.cons.injEq]
      exact ⟨trivial, hd⟩

theorem validPath_append_left : ∀ (a b : List String) (t : List (String × Entry)),
    validPath t (a ++ b) → validPath t a := by
  intro a
  induction a with
  | nil => intro b t _; trivial
  | cons p ps ih =>
    intro b t hv
    obtain ⟨c, hc, hcv⟩ := hv
    exact ⟨c, hc, ih b c hcv⟩

theorem runLines_ok : ∀ (ls : List String) (t : List (String × Entry)) (h : List String),
    validPath t h.reverse →
    ∃ t2 h2, runLines (t, h) ls = .ok (t2, h2) ∧ validPath t2 h2.reverse := by
  intro ls
  induction ls with
  | nil => intro t h hv; exact ⟨t, h, rfl, hv⟩
  | cons l ls ih =>
    intro t h hv
    cases hE : endsWithSlash l with
    | true =>
      obtain ⟨d, hd⟩ := popWhile_is_suffix h (rstripSlashes l)
      have hv2 : validPath t (popWhile h (rstripSlashes l)).reverse := by
        apply validPath_append_left _ d.reverse t
        rw [← List.reverse_append, ← hd]
        exact hv
      obtain ⟨t2, ht2⟩ := setAt_ok (popWhile h (rstripSlashes l)).reverse t hv2
        (rstripSlashes l) (Entry.dir [])
      have hv3 : validPath t2 (rstripSlashes l :: popWhile h (rstripSlashes l)).reverse := by
        rw [List.reverse_cons]
        exact setAt_extends_valid _ t _ t2 ht2 hv2
      obtain ⟨t3, h3, hrun, hval⟩ := ih t2 (rstripSlashes l :: popWhile h (rstripSlashes l)) hv3
      refine ⟨t3, h3, ?_, hval⟩
      simp only [runLines, processLine, hE, if_pos, ht2, except_map_ok]
      exact hrun
    | false =>
      obtain ⟨t2, ht2⟩ := setAt_ok h.reverse t hv (rstripSlashes l) Entry.file
      have hv2 : validPath t2 h.reverse :=
        setAt_preserves_valid h.reverse t (rstripSlashes l) Entry.file t2 ht2 hv
      obtain ⟨t3, h3, hrun, hval⟩ := ih t2 h hv2
      refine ⟨t3, h3, ?_, hval⟩
      simp only [runLines, processLine, hE, Bool.false_eq_true, if_false, ht2, except_map_ok]
      exact hrun

/-- C10: on any input with at least one meaningful line the build completes
without raising — the hierarchy path (the model of the ancestor stack, whose
bottom is the root's child dict) always stays valid, so every non-root entry
is attached to some directory — and a later sibling that reuses an earlier
name silently overwrites the earlier entry, with its whole subtree, in
place. -/
theorem C10_build_total_and_overwrite :
    (∀ input : List String, input.filter (fun l => pyStrip l ≠ "") ≠ [] →
      ∃ t, parse_structure input = .ok t) ∧
    (∀ (t1 t2 : List (String × Entry)) (k : String) (v w : Entry),
      (∀ pr ∈ t1, pr.1 ≠ k) →
      insertAssoc (t1 ++ (k, v) :: t2) k w = t1 ++ (k, w) :: t2) := by
  constructor
  · intro input hne
    cases hfl : input.filter (fun l => pyStrip l ≠ "") with
    | nil => exact absurd hfl hne
    | cons m0 mrest =>
      have hv0 : validPath ([] : List (String × Entry)) (([] : List String)).reverse := by
        simp [validPath]
      obtain ⟨t2, h2, hrun, _⟩ :=
        runLines_ok (((mrest.map pyRstrip).map cleanLine).filter (fun s => s ≠ "")) [] [] hv0
      refine ⟨[(pyStrip (rstripSlashes (pyRstrip m0)), Entry.dir t2)], ?_⟩
      unfold parse_structure
      rw [hfl]
      have hb : buildStructureDict ((m0 :: mrest).map pyRstrip) =
          Except.map (fun st => [(pyStrip (rstripSlashes (pyRstrip m0)), Entry.dir st.1)])
            (runLines ([], []) (((mrest.map pyRstrip).map cleanLine).filter (fun s => s ≠ ""))) := rfl
      rw [hb, hrun]
      rfl
  · intro t1 t2 k v w
    induction t1 with
    | nil =>
      intro _
      simp [insertAssoc]
    | cons a t1 ih =>
      intro hk
      obtain ⟨n, e⟩ := a
      have hn : n ≠ k := by simpa using hk (n, e) (by simp)
      simp only [List.cons_append, insertAssoc, if_neg hn, List.cons.injEq]
      exact ⟨trivial, ih (fun pr hpr => hk pr (by simp [hpr]))⟩

/-- C10 witness: overwriting an existing sibling key keeps its position and
replaces its value. -/
theorem C10_witness :
    insertAssoc [("a", Entry.file), ("b", Entry.file)] "a" (Entry.dir []) =
      [("a", Entry.dir []), ("b", Entry.file)] :=
  C10_build_total_and_overwrite.2 [] [("b", Entry.file)] "a" Entry.file (Entry.dir [])
    (by simp)
